import Mathlib

set_option maxHeartbeats 1000000

/-
Verification of the MLX streaming inference gateway
(src/mlx/server-python-direct.py): the incremental token-to-text decoder,
the generation endpoints (/chat, /chat/ws, /completion), the metrics
snapshot, and the log buffer/broadcaster. Texts are modeled as `List Char`,
the tokenizer `decode` as an oracle `List Nat → Option (List Char)`
(`none` models a raised decode exception), and floats (times, sampling
parameters) as rationals.
-/

namespace MlxServer

/-- Decoded text, modeled as a list of characters. -/
abbrev Text := List Char

/-- Scanner for the special-token regex `<\|[^>]*\|>` used by
`re.sub(r'<\|[^>]*\|>', '', text)` in server-python-direct.py.
`matchRem rest` is given the text that follows a literal `<|`; a match exists
iff the first `>` in `rest` is immediately preceded by `|` (the `[^>]*` body
cannot cross a `>`); on success it returns the text after that `>`. -/
def matchRem : List Char → Option (List Char)
  | [] => none
  | [_] => none
  | c :: c' :: cs =>
    if c = '>' then none
    else if c = '|' ∧ c' = '>' then some cs
    else matchRem (c' :: cs)

/-- One left-to-right pass of `re.sub(r'<\|[^>]*\|>', '', text)`, with explicit
fuel (the text length always suffices, since every step consumes at least one
character). At each position: remove a `<|...|>` match and resume after it,
or keep the character and move on. -/
def stripGo : Nat → List Char → List Char
  | 0, cs => cs
  | _ + 1, [] => []
  | _ + 1, [c] => [c]
  | fuel + 1, c :: c' :: cs =>
    if c = '<' ∧ c' = '|' then
      (matchRem cs).elim ('<' :: '|' :: stripGo fuel cs) (fun b => stripGo fuel b)
    else c :: stripGo fuel (c' :: cs)

/-- `re.sub(r'<\|[^>]*\|>', '', text)` from server-python-direct.py. -/
def strip (cs : List Char) : List Char := stripGo cs.length cs

/-- Does a `<|...|>` match begin at the head of the text? -/
def startsSpecial : List Char → Bool
  | c₁ :: c₂ :: rest => if c₁ = '<' ∧ c₂ = '|' then (matchRem rest).isSome else false
  | _ => false

/-- Does the text contain a `<|...|>` match at any position? -/
def hasSpecial : List Char → Bool
  | [] => false
  | c :: cs => startsSpecial (c :: cs) || hasSpecial cs

/-- Python's `s.startswith(p)`: `startswith s p = true` iff `p` is an initial
segment of `s`. -/
def startswith : List Char → List Char → Bool
  | _, [] => true
  | [], _ :: _ => false
  | c :: s, p₀ :: p => if c = p₀ then startswith s p else false

/-- Decoder-loop state: the accumulated generated token ids and the last
successfully emitted full text (`accumulated_tokens`, `previous_full_text`). -/
structure DecState where
  acc : List Nat
  prev : Text
deriving DecidableEq

/-- One iteration of the incremental-decode body shared by /chat, /chat/ws and
/completion (server-python-direct.py, lines 493-530): append the token id,
re-decode the whole accumulated sequence (`none` models a raised decode
exception, recovered as an empty delta), strip special-token markup, diff
against `previous_full_text` (the suffix when the previous text is a
string-prefix of the current text, empty otherwise), strip the non-empty delta
once more, and advance `previous_full_text` only when the resulting delta is
non-empty. Returns the delta (emitted iff non-empty) and the new state. -/
def decodeStep (d : List Nat → Option Text) (st : DecState) (tok : Nat) :
    Text × DecState :=
  let acc := st.acc ++ [tok]
  match d acc with
  | none => ([], ⟨acc, st.prev⟩)
  | some raw =>
    let current := strip raw
    let tokenText :=
      if st.prev ≠ [] then
        if startswith current st.prev then current.drop st.prev.length else []
      else current
    let tokenText := if tokenText ≠ [] then strip tokenText else tokenText
    let newPrev := if tokenText ≠ [] then current else st.prev
    (tokenText, ⟨acc, newPrev⟩)

/-- Run the decode loop over a list of generated token ids, accumulating the
emitted (non-empty) deltas in order. -/
def runGo (d : List Nat → Option Text) :
    List Nat → DecState → List Text → List Text × DecState
  | [], st, outs => (outs, st)
  | t :: ts, st, outs =>
    let r := decodeStep d st t
    runGo d ts r.2 (outs ++ if r.1 = [] then [] else [r.1])

/-- The deltas a stream emits for a token-id sequence. -/
def emittedDeltas (d : List Nat → Option Text) (toks : List Nat) : List Text :=
  (runGo d toks ⟨[], []⟩ []).1

/-- Concatenation of all emitted deltas of a stream. -/
def emittedConcat (d : List Nat → Option Text) (toks : List Nat) : Text :=
  (emittedDeltas d toks).flatten

/-- The special-token-stripped full decode of a token sequence, the reference
value deltas are compared against (`[]` for the empty sequence, which the loop
never decodes). -/
def sdecP (d : List Nat → Option Text) (p : List Nat) : Text :=
  if p = [] then [] else strip ((d p).getD [])

/-- One event on a generation stream. `stopPlain` is the bare `{"stop": true}`
payload (`{"type": "done"}` over WebSocket), `stopReason r` is
`{"stop": true, "stop_reason": r}`, `errorEv` is `{"error": msg}`
(`{"type": "error"}` over WebSocket). -/
inductive Ev where
  | token (t : Text)
  | stopPlain
  | stopReason (r : String)
  | errorEv (msg : String)
deriving DecidableEq

/-- Terminal events are everything but token deltas. -/
def Ev.isTerminal : Ev → Bool
  | .token _ => false
  | _ => true

/-- Number of terminal events on a stream. -/
def terminalCount (evs : List Ev) : Nat := (evs.filter Ev.isTerminal).length

/-- A structured log line. The HTTP server's generation loops emit only
`generated` ("Generated N tokens...") and `completedGen`
("Generation completed: N tokens") besides failure text; `warnUnsupported`
models the "Unsupported options (using defaults): ..." warning printed by the
standalone inference.py CLI, which the HTTP server never emits. -/
inductive LogLine where
  | generated (n : Nat)
  | completedGen (n : Nat)
  | genFailed
  | warnUnsupported (fields : List String)
deriving DecidableEq

/-- Is this log line an unsupported-sampling-fields warning? -/
def LogLine.isWarn : LogLine → Bool
  | .warnUnsupported _ => true
  | _ => false

/-- Rendered text of a log line, as appended to `log_messages`. -/
def logText : LogLine → String
  | .generated n => "Generated " ++ toString n ++ " tokens..."
  | .completedGen n => "Generation completed: " ++ toString n ++ " tokens"
  | .genFailed => "Generation failed"
  | .warnUnsupported fs => "Unsupported options: " ++ String.intercalate ", " fs

/-- The /chat and /chat/ws token loop (lines 469-552 resp. 661-744): stop when
the token budget is exhausted, the step generator is exhausted
(StopIteration), or the end-of-sequence id appears (checked before decoding);
otherwise run one decode step, emit the delta when non-empty, and log every
10th token. After the loop the single `{"stop": true}` terminal and the
completion log line are emitted. `gen` is the id sequence the backend yields;
returns (events, log lines, number of generated tokens). -/
def chatLoop (d : List Nat → Option Text) (eos : Option Nat) (maxT : ℚ) :
    List Nat → Nat → DecState → List Ev × List LogLine × Nat
  | [], count, _ => ([.stopPlain], [.completedGen count], count)
  | tok :: rest, count, st =>
    if ¬((count : ℚ) < maxT) then ([.stopPlain], [.completedGen count], count)
    else if eos = some tok then ([.stopPlain], [.completedGen count], count)
    else
      let r := decodeStep d st tok
      let rc := chatLoop d eos maxT rest (count + 1) r.2
      ((if r.1 = [] then [] else [Ev.token r.1]) ++ rc.1,
       (if (count + 1) % 10 = 0 then [LogLine.generated (count + 1)] else []) ++ rc.2.1,
       rc.2.2)

/-- The /completion token loop (lines 853-943). Differences from the chat
loop: the budget condition is `token_count < n_predict or n_predict < 0`, and
a token id in `stop_tokens` (the first token of each stop string) or equal to
the EOS id emits a `{"stop": true, "stop_reason": ...}` terminal and breaks —
after which the code still emits the unconditional final `{"stop": true}`. -/
def completionLoop (d : List Nat → Option Text) (stopToks : List Nat)
    (eos : Option Nat) (nP : ℚ) :
    List Nat → Nat → DecState → List Ev × List LogLine × Nat
  | [], count, _ => ([.stopPlain], [.completedGen count], count)
  | tok :: rest, count, st =>
    if ¬((count : ℚ) < nP ∨ nP < 0) then ([.stopPlain], [.completedGen count], count)
    else if stopToks.contains tok then
      ([.stopReason "stop", .stopPlain], [.completedGen count], count)
    else if eos = some tok then
      ([.stopReason "eos", .stopPlain], [.completedGen count], count)
    else
      let r := decodeStep d st tok
      let rc := completionLoop d stopToks eos nP rest (count + 1) r.2
      ((if r.1 = [] then [] else [Ev.token r.1]) ++ rc.1,
       (if (count + 1) % 10 = 0 then [LogLine.generated (count + 1)] else []) ++ rc.2.1,
       rc.2.2)

/-- A JSON-ish request-body value. -/
inductive JVal where
  | str (s : String)
  | num (q : ℚ)
  | boolV (b : Bool)
deriving DecidableEq

/-- A request body: ordered key-value pairs. -/
abbrev Body := List (String × JVal)

/-- Python's `body.get(key, default)`. -/
def bodyGet (b : Body) (k : String) (dflt : JVal) : JVal :=
  (b.lookup k).getD dflt

/-- Python truthiness of a body value (`if not prompt: ...`). -/
def jfalsy : JVal → Bool
  | .str s => decide (s = "")
  | .num q => decide (q = 0)
  | .boolV b => !b

/-- Numeric view of a body value. (Non-numeric values in numeric positions
would raise in Python; the claims never exercise that.) -/
def jq : JVal → ℚ
  | .str _ => 0
  | .num q => q
  | .boolV b => if b then 1 else 0

/-- The fields /chat reads from the request body (lines 407-413), with their
defaults; every other body field is ignored. -/
structure GenParams where
  prompt : JVal
  maxTokens : JVal
  temperature : JVal
  topP : JVal
  minP : JVal
  repeatPenalty : JVal
  repeatLastN : JVal
deriving DecidableEq

/-- Parameter extraction performed by the /chat handler. -/
def chatParams (b : Body) : GenParams :=
  ⟨bodyGet b "prompt" (.str ""),
   bodyGet b "max_tokens" (bodyGet b "n_predict" (.num 512)),
   bodyGet b "temperature" (.num (7 / 10)),
   bodyGet b "top_p" (.num (95 / 100)),
   bodyGet b "min_p" (.num 0),
   bodyGet b "repeat_penalty" (.num (11 / 10)),
   bodyGet b "repeat_last_n" (bodyGet b "repetition_context_size" (.num 64))⟩

/-- The unsupported sampling fields named by the spec. -/
def unsupportedFields : List String :=
  ["top_k", "mirostat", "tfs_z", "typical_p", "penalize_nl",
   "dry_multiplier", "presence_penalty", "frequency_penalty"]

/-- How a generation request is refused. `wrapped s m` models an
`HTTPException(s, m)` raised inside the handler's `try` block: the blanket
`except Exception` catches it and re-raises `HTTPException(500, str(e))`, so
its outward HTTP status is 500, not `s`. Over /chat/ws, `loading` and `busy`
denote the `{"type":"error"}` frames ("Model is loading..." / "Server is
busy") followed by a close, and `wsFrame` the analogous validation frame. -/
inductive Rej where
  | loading
  | busy
  | wrapped (status : Nat) (detail : String)
  | wsFrame (msg : String)
deriving DecidableEq

/-- Outward HTTP status of a refusal (0 for WebSocket frames, which carry no
HTTP status). -/
def Rej.httpStatus : Rej → Nat
  | .loading => 503
  | .busy => 503
  | .wrapped _ _ => 500
  | .wsFrame _ => 0

/-- Result of a generation endpoint: a refusal, or the streamed events plus
the log lines the generation appended. -/
inductive ChatOutcome where
  | reject (r : Rej)
  | stream (evs : List Ev) (logs : List LogLine)
deriving DecidableEq

/-- Events of an outcome (none for a refusal). -/
def outcomeEvents : ChatOutcome → List Ev
  | .reject _ => []
  | .stream evs _ => evs

/-- Log lines of an outcome (none for a refusal). -/
def outcomeLogs : ChatOutcome → List LogLine
  | .reject _ => []
  | .stream _ logs => logs

/-- The server's module-level mutable state (lines 45-60): `ready`,
`processing`, `request_queue`, `log_messages` and the throughput counters. -/
structure SState where
  ready : Bool
  processing : Bool
  requestQueue : List Nat
  logMessages : List String
  tokensGenerated : Nat
  tokensGeneratedTotal : Nat
  generationStartTime : Option ℚ
deriving DecidableEq

/-- State at process start. -/
def initState : SState := ⟨false, false, [], [], 0, 0, none⟩

/-- A ready, idle server state. -/
def readyState : SState := ⟨true, false, [], [], 0, 0, none⟩

/-- `broadcast_log` (lines 62-68): append the line, then pop the oldest one if
the buffer has grown past 1000 lines. -/
def broadcastLog (buf : List α) (msg : α) : List α :=
  let b := buf ++ [msg]
  if b.length > 1000 then b.drop 1 else b

/-- POST /chat (lines 394-578). The busy/loading checks precede the `try`
block and surface as genuine 503s; the empty-prompt `HTTPException(400)` is
raised inside it and therefore surfaces as a 500 (`Rej.wrapped`), with the
`except` clause re-clearing the (already false) `processing` flag; otherwise
the generation streams and the `finally` clause resets `processing`,
`tokens_generated` and `generation_start_time`. `d` is the tokenizer decode
oracle, `gen` the token-id sequence `generate_step` yields, `eos` the
tokenizer's `eos_token_id`. -/
def chat (s : SState) (b : Body) (d : List Nat → Option Text)
    (gen : List Nat) (eos : Option Nat) : ChatOutcome × SState :=
  if s.ready = false then (.reject .loading, s)
  else if s.processing = true then (.reject .busy, s)
  else if jfalsy (bodyGet b "prompt" (.str "")) then
    (.reject (.wrapped 400 "Prompt is required"),
     ⟨s.ready, false, s.requestQueue, s.logMessages, s.tokensGenerated,
      s.tokensGeneratedTotal, s.generationStartTime⟩)
  else
    let r := chatLoop d eos (jq (chatParams b).maxTokens) gen 0 ⟨[], []⟩
    (.stream r.1 r.2.1,
     ⟨s.ready, false, s.requestQueue,
      List.foldl broadcastLog s.logMessages (r.2.1.map logText),
      0, s.tokensGeneratedTotal + r.2.2, none⟩)

/-- The /chat/ws WebSocket endpoint (lines 581-769): same semantics as /chat,
except refusals are error frames followed by a close, the empty-prompt
refusal happens before `processing` is ever touched, and the ws loop never
increments `tokens_generated`/`tokens_generated_total` (it only counts
`token_count` locally); its `finally` still resets the counters. -/
def chatWs (s : SState) (b : Body) (d : List Nat → Option Text)
    (gen : List Nat) (eos : Option Nat) : ChatOutcome × SState :=
  if s.ready = false then (.reject .loading, s)
  else if s.processing = true then (.reject .busy, s)
  else if jfalsy (bodyGet b "prompt" (.str "")) then
    (.reject (.wsFrame "Prompt is required"), s)
  else
    let r := chatLoop d eos (jq (chatParams b).maxTokens) gen 0 ⟨[], []⟩
    (.stream r.1 r.2.1,
     ⟨s.ready, false, s.requestQueue,
      List.foldl broadcastLog s.logMessages (r.2.1.map logText),
      0, s.tokensGeneratedTotal, none⟩)

/-- POST /completion (lines 772-968). Validation mirrors /chat (plus the 501
for `stream: false`, also wrapped into a 500 by the blanket except). Its
`finally` clause only clears `processing` (lines 951-954): unlike /chat it
does NOT reset `tokens_generated` or `generation_start_time`, which keep the
values set during the generation (`tStart` is the `time.time()` taken at
generation start). `stopToks` models `[tokenizer.encode(s)[0] for s in stop]`. -/
def completion (s : SState) (b : Body) (d : List Nat → Option Text)
    (gen : List Nat) (eos : Option Nat) (stopToks : List Nat) (tStart : ℚ) :
    ChatOutcome × SState :=
  if s.ready = false then (.reject .loading, s)
  else if s.processing = true then (.reject .busy, s)
  else if jfalsy (bodyGet b "prompt" (.str "")) then
    (.reject (.wrapped 400 "Prompt is required"),
     ⟨s.ready, false, s.requestQueue, s.logMessages, s.tokensGenerated,
      s.tokensGeneratedTotal, s.generationStartTime⟩)
  else if jfalsy (bodyGet b "stream" (.boolV true)) then
    (.reject (.wrapped 501 "Non-streaming completion not implemented"),
     ⟨s.ready, false, s.requestQueue, s.logMessages, s.tokensGenerated,
      s.tokensGeneratedTotal, s.generationStartTime⟩)
  else
    let nP := jq (bodyGet b "n_predict" (bodyGet b "max_tokens" (.num 512)))
    let r := completionLoop d stopToks eos nP gen 0 ⟨[], []⟩
    (.stream r.1 r.2.1,
     ⟨s.ready, false, s.requestQueue,
      List.foldl broadcastLog s.logMessages (r.2.1.map logText),
      r.2.2, s.tokensGeneratedTotal + r.2.2, some tStart⟩)

/-- A /metrics (or /metrics/stream) snapshot (lines 212-221, 296-346). -/
structure Snapshot where
  ready : Bool
  processing : Bool
  queueLength : Nat
  tps : ℚ
  predictedTotal : Nat
deriving DecidableEq

/-- The `tps` computation of `get_system_metrics` (lines 265-271): zero unless
tokens have been generated, `generation_start_time` is truthy (set and
non-zero), and the elapsed time since it is positive. -/
def tpsOf (s : SState) (now : ℚ) : ℚ :=
  match s.generationStartTime with
  | none => 0
  | some t =>
    if 0 < s.tokensGenerated ∧ t ≠ 0 ∧ 0 < now - t then
      (s.tokensGenerated : ℚ) / (now - t)
    else 0

/-- The freshly computed snapshot served by GET /metrics and pushed by the
/metrics/stream loop. -/
def metricsSnapshot (s : SState) (now : ℚ) : Snapshot :=
  ⟨s.ready, s.processing, s.requestQueue.length, tpsOf s now,
   s.tokensGeneratedTotal⟩

/-- Model load success (line 175). -/
def opLoadOk (s : SState) : SState :=
  ⟨true, s.processing, s.requestQueue, s.logMessages, s.tokensGenerated,
   s.tokensGeneratedTotal, s.generationStartTime⟩

/-- Admission of a generation request (`processing = True`). -/
def opProcessingOn (s : SState) : SState :=
  ⟨s.ready, true, s.requestQueue, s.logMessages, s.tokensGenerated,
   s.tokensGeneratedTotal, s.generationStartTime⟩

/-- Start of a generation loop: `generation_start_time = time.time()`,
`tokens_generated = 0` (lines 452-453, 831-832). -/
def opGenBegin (t : ℚ) (s : SState) : SState :=
  ⟨s.ready, s.processing, s.requestQueue, s.logMessages, 0,
   s.tokensGeneratedTotal, some t⟩

/-- One generated token: both counters increment (lines 538-539). -/
def opTokenStep (s : SState) : SState :=
  ⟨s.ready, s.processing, s.requestQueue, s.logMessages,
   s.tokensGenerated + 1, s.tokensGeneratedTotal + 1, s.generationStartTime⟩

/-- The /chat and /chat/ws `finally` clause (lines 560-564, 752-757). -/
def opChatRelease (s : SState) : SState :=
  ⟨s.ready, false, s.requestQueue, s.logMessages, 0,
   s.tokensGeneratedTotal, none⟩

/-- The /completion `finally` clause (lines 951-954): only `processing`. -/
def opCompletionRelease (s : SState) : SState :=
  ⟨s.ready, false, s.requestQueue, s.logMessages, s.tokensGenerated,
   s.tokensGeneratedTotal, s.generationStartTime⟩

/-- A `broadcast_log` call. -/
def opLog (m : String) (s : SState) : SState :=
  ⟨s.ready, s.processing, s.requestQueue, broadcastLog s.logMessages m,
   s.tokensGenerated, s.tokensGeneratedTotal, s.generationStartTime⟩

/-- States reachable from process start through the state mutations the server
performs: model-load completion, generation admission, per-token steps,
endpoint releases, log appends, and whole endpoint runs. No operation in
server-python-direct.py ever touches `request_queue`. -/
inductive Reachable : SState → Prop where
  | init : Reachable initState
  | loadOk {s} : Reachable s → Reachable (opLoadOk s)
  | processingOn {s} : Reachable s → Reachable (opProcessingOn s)
  | genBegin {s} (t : ℚ) : Reachable s → Reachable (opGenBegin t s)
  | tokenStep {s} : Reachable s → Reachable (opTokenStep s)
  | chatRelease {s} : Reachable s → Reachable (opChatRelease s)
  | completionRelease {s} : Reachable s → Reachable (opCompletionRelease s)
  | logLine {s} (m : String) : Reachable s → Reachable (opLog m s)
  | chatRun {s} (b : Body) (d : List Nat → Option Text) (gen : List Nat)
      (eos : Option Nat) : Reachable s → Reachable (chat s b d gen eos).2
  | chatWsRun {s} (b : Body) (d : List Nat → Option Text) (gen : List Nat)
      (eos : Option Nat) : Reachable s → Reachable (chatWs s b d gen eos).2
  | completionRun {s} (b : Body) (d : List Nat → Option Text) (gen : List Nat)
      (eos : Option Nat) (stopToks : List Nat) (tStart : ℚ) :
      Reachable s → Reachable (completion s b d gen eos stopToks tStart).2

/-- The last `n` elements of a list (`log_messages[-n:]`). -/
def lastN (n : Nat) (l : List α) : List α := l.drop (l.length - n)

/-- One /logs/stream subscriber together with the shared log buffer:
`lastIndex` is the handler's `last_index` cursor, `received` the log lines the
client has been sent so far (backlog then live lines; the fixed connection
banner is a protocol acknowledgement, not a log line). -/
structure LogSys (α : Type) where
  buffer : List α
  lastIndex : Nat
  received : List α
deriving DecidableEq

/-- /logs/stream connect (lines 349-370): send the last 100 buffered lines,
then snapshot `last_index = len(log_messages)`. -/
def connectSub (buf : List α) : LogSys α := ⟨buf, buf.length, lastN 100 buf⟩

/-- `broadcast_log_async` (lines 73-90) while this subscriber is connected:
append the line to the buffer AND push it to the subscriber immediately
(the handler's `last_index` cursor is not advanced). -/
def asyncBroadcast (s : LogSys α) (m : α) : LogSys α :=
  ⟨broadcastLog s.buffer m, s.lastIndex, s.received ++ [m]⟩

/-- Plain `broadcast_log` (no WebSocket push), as called from the generation
loops. -/
def syncBroadcast (s : LogSys α) (m : α) : LogSys α :=
  ⟨broadcastLog s.buffer m, s.lastIndex, s.received⟩

/-- One wakeup of the subscriber's 0.5-second polling loop (lines 371-384):
send `log_messages[last_index:]` and advance the cursor. -/
def pollTick (s : LogSys α) : LogSys α :=
  if s.lastIndex < s.buffer.length then
    ⟨s.buffer, s.buffer.length, s.received ++ s.buffer.drop s.lastIndex⟩
  else s

/-- Decode oracle for the C1 counterexample: the full decode retroactively
changes ("A" for [1], but "B" for [1, 2]). -/
def cdecode : List Nat → Option Text := fun ids =>
  if ids = [1] then some ['A'] else if ids = [1, 2] then some ['B'] else some []

/-- A well-behaved decode oracle: "He" for [1], "Hello" for [1, 2]. -/
def dMono : List Nat → Option Text := fun ids =>
  if ids = [1] then some ['H', 'e']
  else if ids = [1, 2] then some ['H', 'e', 'l', 'l', 'o'] else some []

/-- Decode oracle whose stripped decode still contains special-token markup:
[7] decodes to "<<||>||>", which strips to "<||>" (stripping once is not
idempotent). -/
def dResidual : List Nat → Option Text := fun ids =>
  if ids = [7] then some ['<', '<', '|', '|', '>', '|', '|', '>'] else some []

/-- Decode oracle for the C6 witness: [5, 6] decodes to "Hi". -/
def dHi : List Nat → Option Text := fun ids =>
  if ids = [5, 6] then some ['H', 'i'] else some ['H']

/-- Trivial decode oracle: every sequence decodes to "ok". -/
def dTriv : List Nat → Option Text := fun _ => some ['o', 'k']

/-- A minimal valid request body. -/
def demoBody : Body := [("prompt", .str "hi")]

/-- The same body with the unsupported `top_k` field present. -/
def bodyTopK : Body := ("top_k", .num 10) :: demoBody

/-- A ready server state with a generation in flight. -/
def sBusy : SState := opProcessingOn (opLoadOk initState)

theorem startswith_iff (s p : List Char) :
    startswith s p = true ↔ ∃ t, s = p ++ t := by
  induction p generalizing s with
  | nil => simp [startswith]
  | cons p₀ p ih =>
    cases s with
    | nil => simp [startswith]
    | cons c s =>
      rw [startswith]
      by_cases hc : c = p₀
      · subst hc
        rw [if_pos rfl, ih]
        simp [List.cons_append]
      · rw [if_neg hc]
        simp [List.cons_append, hc]

theorem startswith_refl (s : List Char) : startswith s s = true := by
  rw [startswith_iff]; exact ⟨[], by simp⟩

theorem startswith_append (p t : List Char) : startswith (p ++ t) p = true := by
  rw [startswith_iff]; exact ⟨t, rfl⟩

theorem startswith_trans {a b c : List Char}
    (h₁ : startswith b a = true) (h₂ : startswith c b = true) :
    startswith c a = true := by
  rw [startswith_iff] at h₁ h₂ ⊢
  obtain ⟨t₁, rfl⟩ := h₁
  obtain ⟨t₂, rfl⟩ := h₂
  exact ⟨t₁ ++ t₂, by simp⟩

theorem drop_len_append (xs ys : List α) : (xs ++ ys).drop xs.length = ys := by
  induction xs with
  | nil => simp
  | cons x xs ih => simp [ih]

theorem append_drop_of_startswith {c p : List Char}
    (h : startswith c p = true) : p ++ c.drop p.length = c := by
  rw [startswith_iff] at h
  obtain ⟨t, rfl⟩ := h
  rw [drop_len_append]

theorem eq_of_startswith_drop_nil {c p : List Char}
    (h : startswith c p = true) (h2 : c.drop p.length = []) : c = p := by
  have h3 := append_drop_of_startswith h
  rw [h2] at h3
  simpa using h3.symm

theorem matchRem_append {r b : List Char} (ys : List Char)
    (h : matchRem r = some b) : matchRem (r ++ ys) = some (b ++ ys) := by
  induction r with
  | nil => simp [matchRem] at h
  | cons c cs ih =>
    cases cs with
    | nil => simp [matchRem] at h
    | cons c' cs' =>
      rw [matchRem] at h
      rw [List.cons_append, List.cons_append, matchRem]
      by_cases h1 : c = '>'
      · rw [if_pos h1] at h; exact absurd h (by simp)
      · rw [if_neg h1] at h
        rw [if_neg h1]
        by_cases h2 : c = '|' ∧ c' = '>'
        · rw [if_pos h2] at h
          rw [if_pos h2]
          injection h with h
          rw [h]
        · rw [if_neg h2] at h
          rw [if_neg h2]
          have h3 := ih h
          rwa [List.cons_append] at h3

theorem startsSpecial_append {xs : List Char} (ys : List Char)
    (h : startsSpecial xs = true) : startsSpecial (xs ++ ys) = true := by
  match xs with
  | [] => simp [startsSpecial] at h
  | [c] => simp [startsSpecial] at h
  | c₁ :: c₂ :: rest =>
    rw [startsSpecial] at h
    by_cases hc : c₁ = '<' ∧ c₂ = '|'
    · rw [if_pos hc] at h
      obtain ⟨b, hb⟩ := Option.isSome_iff_exists.mp h
      have h2 := matchRem_append ys hb
      show startsSpecial (c₁ :: c₂ :: (rest ++ ys)) = true
      rw [startsSpecial, if_pos hc, h2]
      rfl
    · rw [if_neg hc] at h; exact absurd h (by simp)

theorem hasSpecial_append_left {xs : List Char} (ys : List Char)
    (h : hasSpecial xs = true) : hasSpecial (xs ++ ys) = true := by
  induction xs with
  | nil => simp [hasSpecial] at h
  | cons c cs ih =>
    rw [hasSpecial, Bool.or_eq_true] at h
    rw [List.cons_append, hasSpecial, Bool.or_eq_true]
    rcases h with h | h
    · exact Or.inl (startsSpecial_append ys h)
    · exact Or.inr (ih h)

theorem hasSpecial_of_startswith {c p : List Char}
    (hc : hasSpecial c = false) (hp : startswith c p = true) :
    hasSpecial p = false := by
  rw [startswith_iff] at hp
  obtain ⟨t, rfl⟩ := hp
  by_contra h
  rw [Bool.not_eq_false] at h
  rw [hasSpecial_append_left t h] at hc
  exact absurd hc (by simp)

theorem hasSpecial_cons {c : Char} {cs : List Char}
    (h : hasSpecial (c :: cs) = false) : hasSpecial cs = false := by
  rw [hasSpecial, Bool.or_eq_false_iff] at h
  exact h.2

theorem hasSpecial_drop {cs : List Char} (n : Nat)
    (h : hasSpecial cs = false) : hasSpecial (cs.drop n) = false := by
  induction n generalizing cs with
  | zero => simpa using h
  | succ n ih =>
    cases cs with
    | nil => simp [hasSpecial]
    | cons c cs => exact ih (hasSpecial_cons h)

theorem stripGo_clean (fuel : Nat) {cs : List Char}
    (h : hasSpecial cs = false) : stripGo fuel cs = cs := by
  induction fuel generalizing cs with
  | zero => rfl
  | succ fuel ih =>
    match cs, h with
    | [], _ => rfl
    | [c], _ => rfl
    | c :: c' :: rest, h =>
      rw [stripGo]
      by_cases hc : c = '<' ∧ c' = '|'
      · rw [if_pos hc]
        have hss : startsSpecial (c :: c' :: rest) = false := by
          rw [hasSpecial, Bool.or_eq_false_iff] at h; exact h.1
        rw [startsSpecial, if_pos hc] at hss
        have hmr : matchRem rest = none := by
          cases hx : matchRem rest with
          | none => rfl
          | some b => rw [hx] at hss; exact absurd hss (by simp)
        rw [hmr, Option.elim_none]
        rw [ih (hasSpecial_cons (hasSpecial_cons h)), hc.1, hc.2]
      · rw [if_neg hc, ih (hasSpecial_cons h)]

theorem strip_clean {cs : List Char} (h : hasSpecial cs = false) :
    strip cs = cs := stripGo_clean _ h

theorem take_all_of_le {l : List α} {n : Nat} (h : l.length ≤ n) : l.take n = l := by
  induction l generalizing n with
  | nil => simp
  | cons x xs ih =>
    cases n with
    | zero => simp at h
    | succ n =>
      rw [List.take_succ_cons, ih (by simp [List.length_cons] at h; omega)]

theorem take_len_append (xs ys : List α) (k : Nat) :
    (xs ++ ys).take (xs.length + k) = xs ++ ys.take k := by
  induction xs with
  | nil => simp
  | cons x xs ih =>
    rw [List.cons_append, List.length_cons,
      show xs.length + 1 + k = (xs.length + k) + 1 by omega,
      List.take_succ_cons, ih, List.cons_append]

theorem drop_len_append_add (xs ys : List α) (k : Nat) :
    (xs ++ ys).drop (xs.length + k) = ys.drop k := by
  induction xs with
  | nil => simp
  | cons x xs ih =>
    rw [List.cons_append, List.length_cons,
      show xs.length + 1 + k = (xs.length + k) + 1 by omega,
      List.drop_succ_cons, ih]

theorem drop_nil_le {l : List α} {n : Nat} : l.drop n = [] ↔ l.length ≤ n := by
  induction l generalizing n with
  | nil => simp
  | cons x xs ih =>
    cases n with
    | zero => simp
    | succ n =>
      rw [List.drop_succ_cons, ih]
      simp [List.length_cons]

theorem lt_of_drop_cons {l : List α} {n : Nat} {t : α} {ts : List α}
    (h : l.drop n = t :: ts) : n < l.length := by
  by_contra hx
  push_neg at hx
  rw [drop_nil_le.mpr hx] at h
  simp at h

theorem take_succ_of_drop_cons {l : List α} {n : Nat} {t : α} {ts : List α}
    (h : l.drop n = t :: ts) : l.take (n + 1) = l.take n ++ [t] := by
  have hn : n < l.length := lt_of_drop_cons h
  have hlen : (l.take n).length = n := by rw [List.length_take]; omega
  calc l.take (n + 1) = (l.take n ++ l.drop n).take (n + 1) := by
        rw [List.take_append_drop]
    _ = (l.take n ++ t :: ts).take ((l.take n).length + 1) := by rw [h, hlen]
    _ = l.take n ++ (t :: ts).take 1 := take_len_append _ _ _
    _ = l.take n ++ [t] := by simp

theorem drop_succ_of_drop_cons {l : List α} {n : Nat} {t : α} {ts : List α}
    (h : l.drop n = t :: ts) : l.drop (n + 1) = ts := by
  have hn : n < l.length := lt_of_drop_cons h
  have hlen : (l.take n).length = n := by rw [List.length_take]; omega
  calc l.drop (n + 1) = (l.take n ++ l.drop n).drop (n + 1) := by
        rw [List.take_append_drop]
    _ = (l.take n ++ t :: ts).drop ((l.take n).length + 1) := by rw [h, hlen]
    _ = (t :: ts).drop 1 := drop_len_append_add _ _ _
    _ = ts := rfl

theorem decodeStep_none {d : List Nat → Option Text} {st : DecState} {tok : Nat}
    (hd : d (st.acc ++ [tok]) = none) :
    decodeStep d st tok = ([], ⟨st.acc ++ [tok], st.prev⟩) := by
  simp only [decodeStep, hd]

theorem decodeStep_skip {d : List Nat → Option Text} {st : DecState} {tok : Nat}
    {raw : Text} (hd : d (st.acc ++ [tok]) = some raw)
    (hsw : startswith (strip raw) st.prev = false) :
    decodeStep d st tok = ([], ⟨st.acc ++ [tok], st.prev⟩) := by
  have hne : st.prev ≠ [] := by
    intro h
    rw [h] at hsw
    simp [startswith] at hsw
  simp [decodeStep, hd, hne, hsw]

theorem decodeStep_clean {d : List Nat → Option Text} {st : DecState} {tok : Nat}
    {raw : Text} (hd : d (st.acc ++ [tok]) = some raw)
    (hsw : startswith (strip raw) st.prev = true)
    (hcl : hasSpecial (strip raw) = false) :
    decodeStep d st tok =
      ((strip raw).drop st.prev.length,
       ⟨st.acc ++ [tok],
        if (strip raw).drop st.prev.length = [] then st.prev
        else strip raw⟩) := by
  simp only [decodeStep, hd]
  by_cases hp : st.prev = []
  · by_cases hcur : strip raw = []
    · simp [hp, hcur]
    · simp [hp, hcur, strip_clean hcl]
  · by_cases hnil : (strip raw).drop st.prev.length = []
    · simp [hp, hsw, hnil]
    · simp [hp, hsw, hnil, strip_clean (hasSpecial_drop st.prev.length hcl)]

theorem decodeStep_prev_eq_of_nil {st : DecState} {raw : Text}
    (hsw : startswith (strip raw) st.prev = true)
    (hnil : (strip raw).drop st.prev.length = []) : st.prev = strip raw :=
  (eq_of_startswith_drop_nil hsw hnil).symm

theorem sdec_chain (d : List Nat → Option Text) (toks : List Nat)
    (hmono : ∀ n, n < toks.length →
      startswith (sdecP d (toks.take (n + 1))) (sdecP d (toks.take n)) = true) :
    ∀ n k, startswith (sdecP d (toks.take (n + k))) (sdecP d (toks.take n)) = true := by
  intro n k
  induction k with
  | zero => exact startswith_refl _
  | succ k ihk =>
    by_cases h : n + k < toks.length
    · have h2 := hmono (n + k) h
      rw [show n + (k + 1) = (n + k) + 1 by omega]
      exact startswith_trans ihk h2
    · push_neg at h
      have e1 : toks.take (n + k) = toks := take_all_of_le h
      have e2 : toks.take (n + (k + 1)) = toks := take_all_of_le (by omega)
      rw [e2]
      rw [e1] at ihk
      exact ihk

theorem sdec_clean_take (d : List Nat → Option Text) (toks : List Nat)
    (hmono : ∀ n, n < toks.length →
      startswith (sdecP d (toks.take (n + 1))) (sdecP d (toks.take n)) = true)
    (hclean : hasSpecial (sdecP d toks) = false) (m : Nat) :
    hasSpecial (sdecP d (toks.take m)) = false := by
  have hch := sdec_chain d toks hmono m toks.length
  rw [take_all_of_le (by omega)] at hch
  exact hasSpecial_of_startswith hclean hch

theorem runGo_spec (d : List Nat → Option Text) (toks : List Nat)
    (hsome : ∀ n, n < toks.length → (d (toks.take (n + 1))).isSome = true)
    (hmono : ∀ n, n < toks.length →
      startswith (sdecP d (toks.take (n + 1))) (sdecP d (toks.take n)) = true)
    (hclean : hasSpecial (sdecP d toks) = false) :
    ∀ rest n (st : DecState) (outs : List Text), toks.drop n = rest →
      st.acc = toks.take n → st.prev = sdecP d (toks.take n) →
      outs.flatten = st.prev →
      (runGo d rest st outs).1.flatten = sdecP d toks := by
  intro rest
  induction rest with
  | nil =>
    intro n st outs hdrop hacc hprev hjoin
    have hlen : toks.length ≤ n := drop_nil_le.mp hdrop
    simp only [runGo]
    rw [hjoin, hprev, take_all_of_le hlen]
  | cons t ts ih =>
    intro n st outs hdrop hacc hprev hjoin
    have hn : n < toks.length := lt_of_drop_cons hdrop
    have htake : toks.take (n + 1) = toks.take n ++ [t] :=
      take_succ_of_drop_cons hdrop
    have htkne : toks.take (n + 1) ≠ [] := by rw [htake]; simp
    obtain ⟨raw, hraw⟩ := Option.isSome_iff_exists.mp (hsome n hn)
    have hsdec : sdecP d (toks.take (n + 1)) = strip raw := by
      rw [sdecP, if_neg htkne, hraw]
      rfl
    have hraw2 : d (st.acc ++ [t]) = some raw := by
      rw [hacc, ← htake]; exact hraw
    have hsw : startswith (strip raw) st.prev = true := by
      rw [hprev, ← hsdec]; exact hmono n hn
    have hcl : hasSpecial (strip raw) = false := by
      rw [← hsdec]
      exact sdec_clean_take d toks hmono hclean (n + 1)
    have hstep := decodeStep_clean hraw2 hsw hcl
    simp only [runGo, hstep]
    refine ih (n + 1) _ _ (drop_succ_of_drop_cons hdrop) ?_ ?_ ?_
    · show st.acc ++ [t] = toks.take (n + 1)
      rw [hacc, htake]
    · show (if (strip raw).drop st.prev.length = [] then st.prev else strip raw)
          = sdecP d (toks.take (n + 1))
      by_cases hnil : (strip raw).drop st.prev.length = []
      · rw [if_pos hnil, hsdec]
        exact decodeStep_prev_eq_of_nil hsw hnil
      · rw [if_neg hnil, hsdec]
    · show (outs ++ if (strip raw).drop st.prev.length = [] then []
          else [(strip raw).drop st.prev.length]).flatten
          = (if (strip raw).drop st.prev.length = [] then st.prev else strip raw)
      by_cases hnil : (strip raw).drop st.prev.length = []
      · rw [if_pos hnil, if_pos hnil]
        simp [hjoin]
      · rw [if_neg hnil, if_neg hnil, List.flatten_append, hjoin]
        simp [append_drop_of_startswith hsw]

theorem chatLoop_no_warn (d : List Nat → Option Text) (eos : Option Nat)
    (maxT : ℚ) : ∀ (gen : List Nat) (count : Nat) (st : DecState),
    ∀ l ∈ (chatLoop d eos maxT gen count st).2.1, l.isWarn = false := by
  intro gen
  induction gen with
  | nil =>
    intro count st l hl
    simp only [chatLoop, List.mem_singleton] at hl
    subst hl
    rfl
  | cons tok rest ih =>
    intro count st l hl
    rw [chatLoop] at hl
    by_cases h1 : ¬((count : ℚ) < maxT)
    · rw [if_pos h1] at hl
      simp only [List.mem_singleton] at hl
      subst hl
      rfl
    · rw [if_neg h1] at hl
      by_cases h2 : eos = some tok
      · rw [if_pos h2] at hl
        simp only [List.mem_singleton] at hl
        subst hl
        rfl
      · rw [if_neg h2] at hl
        simp only [List.mem_append] at hl
        rcases hl with hl | hl
        · by_cases h3 : (count + 1) % 10 = 0
          · rw [if_pos h3] at hl
            simp only [List.mem_singleton] at hl
            subst hl
            rfl
          · rw [if_neg h3] at hl
            simp at hl
        · exact ih _ _ l hl

theorem chat_no_warn (s : SState) (b : Body) (d : List Nat → Option Text)
    (gen : List Nat) (eos : Option Nat) :
    ∀ l ∈ outcomeLogs (chat s b d gen eos).1, l.isWarn = false := by
  intro l hl
  rw [chat] at hl
  split_ifs at hl
  · simp [outcomeLogs] at hl
  · simp [outcomeLogs] at hl
  · simp [outcomeLogs] at hl
  · simp only [outcomeLogs] at hl
    exact chatLoop_no_warn d eos _ gen 0 ⟨[], []⟩ l hl

theorem completionLoop_no_warn (d : List Nat → Option Text)
    (stopToks : List Nat) (eos : Option Nat) (nP : ℚ) :
    ∀ (gen : List Nat) (count : Nat) (st : DecState),
    ∀ l ∈ (completionLoop d stopToks eos nP gen count st).2.1,
      l.isWarn = false := by
  intro gen
  induction gen with
  | nil =>
    intro count st l hl
    simp only [completionLoop, List.mem_singleton] at hl
    subst hl
    rfl
  | cons tok rest ih =>
    intro count st l hl
    rw [completionLoop] at hl
    by_cases h1 : ¬((count : ℚ) < nP ∨ nP < 0)
    · rw [if_pos h1] at hl
      simp only [List.mem_singleton] at hl
      subst hl
      rfl
    · rw [if_neg h1] at hl
      by_cases h2 : stopToks.contains tok = true
      · rw [if_pos h2] at hl
        simp only [List.mem_singleton] at hl
        subst hl
        rfl
      · rw [if_neg h2] at hl
        by_cases h3 : eos = some tok
        · rw [if_pos h3] at hl
          simp only [List.mem_singleton] at hl
          subst hl
          rfl
        · rw [if_neg h3] at hl
          simp only [List.mem_append] at hl
          rcases hl with hl | hl
          · by_cases h4 : (count + 1) % 10 = 0
            · rw [if_pos h4] at hl
              simp only [List.mem_singleton] at hl
              subst hl
              rfl
            · rw [if_neg h4] at hl
              simp at hl
          · exact ih _ _ l hl

theorem chatWs_no_warn (s : SState) (b : Body) (d : List Nat → Option Text)
    (gen : List Nat) (eos : Option Nat) :
    ∀ l ∈ outcomeLogs (chatWs s b d gen eos).1, l.isWarn = false := by
  intro l hl
  rw [chatWs] at hl
  split_ifs at hl
  · simp [outcomeLogs] at hl
  · simp [outcomeLogs] at hl
  · simp [outcomeLogs] at hl
  · simp only [outcomeLogs] at hl
    exact chatLoop_no_warn d eos _ gen 0 ⟨[], []⟩ l hl

theorem completion_no_warn (s : SState) (b : Body) (d : List Nat → Option Text)
    (gen : List Nat) (eos : Option Nat) (stopToks : List Nat) (tStart : ℚ) :
    ∀ l ∈ outcomeLogs (completion s b d gen eos stopToks tStart).1,
      l.isWarn = false := by
  intro l hl
  rw [completion] at hl
  split_ifs at hl
  · simp [outcomeLogs] at hl
  · simp [outcomeLogs] at hl
  · simp [outcomeLogs] at hl
  · simp [outcomeLogs] at hl
  · simp only [outcomeLogs] at hl
    exact completionLoop_no_warn d stopToks eos _ gen 0 ⟨[], []⟩ l hl

theorem chat_queue (s : SState) (b : Body) (d : List Nat → Option Text)
    (gen : List Nat) (eos : Option Nat) :
    (chat s b d gen eos).2.requestQueue = s.requestQueue := by
  rw [chat]
  split_ifs <;> rfl

theorem chatWs_queue (s : SState) (b : Body) (d : List Nat → Option Text)
    (gen : List Nat) (eos : Option Nat) :
    (chatWs s b d gen eos).2.requestQueue = s.requestQueue := by
  rw [chatWs]
  split_ifs <;> rfl

theorem completion_queue (s : SState) (b : Body) (d : List Nat → Option Text)
    (gen : List Nat) (eos : Option Nat) (stopToks : List Nat) (tStart : ℚ) :
    (completion s b d gen eos stopToks tStart).2.requestQueue =
      s.requestQueue := by
  rw [completion]
  split_ifs <;> rfl

theorem reachable_queue {s : SState} (h : Reachable s) :
    s.requestQueue = [] := by
  induction h with
  | init => rfl
  | loadOk _ ih => exact ih
  | processingOn _ ih => exact ih
  | genBegin t _ ih => exact ih
  | tokenStep _ ih => exact ih
  | chatRelease _ ih => exact ih
  | completionRelease _ ih => exact ih
  | logLine m _ ih => exact ih
  | chatRun b d gen eos _ ih => rw [chat_queue]; exact ih
  | chatWsRun b d gen eos _ ih => rw [chatWs_queue]; exact ih
  | completionRun b d gen eos stopToks t _ ih => rw [completion_queue]; exact ih

theorem broadcastLog_length (buf : List α) (m : α) (h : buf.length ≤ 1000) :
    (broadcastLog buf m).length = min (buf.length + 1) 1000 := by
  simp only [broadcastLog]
  by_cases hb : (buf ++ [m]).length > 1000
  · rw [if_pos hb]
    simp at hb ⊢
    omega
  · rw [if_neg hb]
    simp at hb ⊢
    omega

theorem broadcastLog_le (buf : List α) (m : α) (h : buf.length ≤ 1000) :
    (broadcastLog buf m).length ≤ 1000 := by
  rw [broadcastLog_length buf m h]
  omega

theorem broadcastLog_suffix (buf : List α) (m : α) :
    ∃ pre, pre ++ broadcastLog buf m = buf ++ [m] := by
  simp only [broadcastLog]
  by_cases hb : (buf ++ [m]).length > 1000
  · rw [if_pos hb]
    cases buf with
    | nil => simp at hb
    | cons x xs => exact ⟨[x], by simp⟩
  · rw [if_neg hb]
    exact ⟨[], rfl⟩

theorem foldl_broadcastLog_suffix (msgs : List α) (buf : List α) :
    ∃ pre, pre ++ List.foldl broadcastLog buf msgs = buf ++ msgs := by
  induction msgs generalizing buf with
  | nil => exact ⟨[], by simp⟩
  | cons m rest ih =>
    obtain ⟨p1, hp1⟩ := broadcastLog_suffix buf m
    obtain ⟨p2, hp2⟩ := ih (broadcastLog buf m)
    refine ⟨p1 ++ p2, ?_⟩
    rw [List.foldl_cons]
    calc p1 ++ p2 ++ List.foldl broadcastLog (broadcastLog buf m) rest
        = p1 ++ (p2 ++ List.foldl broadcastLog (broadcastLog buf m) rest) := by
          rw [List.append_assoc]
      _ = p1 ++ (broadcastLog buf m ++ rest) := by rw [hp2]
      _ = (p1 ++ broadcastLog buf m) ++ rest := by rw [List.append_assoc]
      _ = (buf ++ [m]) ++ rest := by rw [hp1]
      _ = buf ++ m :: rest := by simp

theorem foldl_broadcastLog_length (msgs : List α) (buf : List α)
    (h : buf.length ≤ 1000) :
    (List.foldl broadcastLog buf msgs).length =
      min (buf.length + msgs.length) 1000 := by
  induction msgs generalizing buf with
  | nil =>
    simp only [List.foldl_nil, List.length_nil, Nat.add_zero]
    omega
  | cons m rest ih =>
    rw [List.foldl_cons]
    have h1 := broadcastLog_length buf m h
    have h2 : (broadcastLog buf m).length ≤ 1000 := by omega
    rw [ih _ h2, h1]
    simp only [List.length_cons]
    omega

theorem foldl_broadcastLog_le (msgs : List α) (buf : List α)
    (h : buf.length ≤ 1000) :
    (List.foldl broadcastLog buf msgs).length ≤ 1000 := by
  rw [foldl_broadcastLog_length msgs buf h]
  omega

theorem eq_drop_of_suffix_len {pre res total : List α}
    (h : pre ++ res = total) :
    res = total.drop (total.length - res.length) := by
  subst h
  have hx : (pre ++ res).length - res.length = pre.length := by simp
  rw [hx, drop_len_append]

theorem chat_logLen (s : SState) (b : Body) (d : List Nat → Option Text)
    (gen : List Nat) (eos : Option Nat) (h : s.logMessages.length ≤ 1000) :
    (chat s b d gen eos).2.logMessages.length ≤ 1000 := by
  rw [chat]
  split_ifs
  · exact h
  · exact h
  · exact h
  · exact foldl_broadcastLog_le _ _ h

theorem chatWs_logLen (s : SState) (b : Body) (d : List Nat → Option Text)
    (gen : List Nat) (eos : Option Nat) (h : s.logMessages.length ≤ 1000) :
    (chatWs s b d gen eos).2.logMessages.length ≤ 1000 := by
  rw [chatWs]
  split_ifs
  · exact h
  · exact h
  · exact h
  · exact foldl_broadcastLog_le _ _ h

theorem completion_logLen (s : SState) (b : Body) (d : List Nat → Option Text)
    (gen : List Nat) (eos : Option Nat) (stopToks : List Nat) (tStart : ℚ)
    (h : s.logMessages.length ≤ 1000) :
    (completion s b d gen eos stopToks tStart).2.logMessages.length ≤ 1000 := by
  rw [completion]
  split_ifs
  · exact h
  · exact h
  · exact h
  · exact h
  · exact foldl_broadcastLog_le _ _ h

theorem reachable_logLen {s : SState} (h : Reachable s) :
    s.logMessages.length ≤ 1000 := by
  induction h with
  | init => simp [initState]
  | loadOk _ ih => exact ih
  | processingOn _ ih => exact ih
  | genBegin t _ ih => exact ih
  | tokenStep _ ih => exact ih
  | chatRelease _ ih => exact ih
  | completionRelease _ ih => exact ih
  | logLine m _ ih => exact broadcastLog_le _ m ih
  | chatRun b d gen eos _ ih => exact chat_logLen _ b d gen eos ih
  | chatWsRun b d gen eos _ ih => exact chatWs_logLen _ b d gen eos ih
  | completionRun b d gen eos stopToks t _ ih =>
    exact completion_logLen _ b d gen eos stopToks t ih

/-- Claim C1 counterexample: with a decode oracle whose full decode
retroactively changes ("A" for [1] but "B" for [1, 2]) — allowed by the
external decode interface — the stream emits only "A" and the defensive
branch suppresses the rest, so the concatenation of the emitted deltas
differs from the special-token-stripped full decode of the complete
accumulated sequence. -/
theorem c1_counterexample :
    emittedConcat cdecode [1, 2] = ['A'] ∧ sdecP cdecode [1, 2] = ['B'] ∧
    emittedConcat cdecode [1, 2] ≠ sdecP cdecode [1, 2] := by decide

/-- Claim C1 (amended): provided every non-empty prefix of the sequence
decodes successfully, the special-token-stripped full decodes of successive
prefixes form a prefix chain (each extends the last), and the final stripped
decode contains no residual special-token markup, the concatenation of every
emitted non-empty delta equals the special-token-stripped full decode of the
complete accumulated sequence — including sequences where a single character
spans multiple token ids (a token contributing no new text emits nothing and
does not desynchronize later deltas). -/
theorem c1_theorem (d : List Nat → Option Text) (toks : List Nat)
    (hsome : ∀ n, n < toks.length → (d (toks.take (n + 1))).isSome = true)
    (hmono : ∀ n, n < toks.length →
      startswith (sdecP d (toks.take (n + 1))) (sdecP d (toks.take n)) = true)
    (hclean : hasSpecial (sdecP d toks) = false) :
    emittedConcat d toks = sdecP d toks :=
  runGo_spec d toks hsome hmono hclean toks 0 ⟨[], []⟩ [] (by simp) rfl
    (by simp [sdecP]) rfl

/-- Claim C1 witness: a two-token sequence whose text only completes at the
second token ("He", then "Hello"). -/
theorem c1_witness : emittedConcat dMono [1, 2] = sdecP dMono [1, 2] :=
  c1_theorem dMono [1, 2] (by decide) (by decide) (by decide)

/-- Claim C2: on /completion's stop-token and end-of-sequence paths the code
yields a `stop_reason` terminal, breaks out of the loop, and then still
yields the unconditional final `{"stop": true}` — two terminal events on one
stream, contradicting "exactly one terminal event". Evaluated on streams
whose first generated token is the stop token (resp. the EOS id). -/
theorem c2_theorem :
    outcomeEvents (completion readyState demoBody dTriv [5] none [5] 10).1 =
      [Ev.stopReason "stop", Ev.stopPlain] ∧
    terminalCount
      (outcomeEvents (completion readyState demoBody dTriv [5] none [5] 10).1)
      = 2 ∧
    outcomeEvents (completion readyState demoBody dTriv [9] (some 9) [] 10).1 =
      [Ev.stopReason "eos", Ev.stopPlain] ∧
    terminalCount
      (outcomeEvents (completion readyState demoBody dTriv [9] (some 9) [] 10).1)
      = 2 := by decide

/-- Claim C3: POST /chat (and /completion) with a missing/empty prompt is
refused before any backend call and with no state mutation — but the
handler's own `HTTPException(400, "Prompt is required")` is raised inside the
`try` block, caught by the blanket `except Exception`, and re-raised as
`HTTPException(500, str(e))`, so the response status is 500, not the claimed
400. -/
theorem c3_theorem :
    chat readyState [] dTriv [] none =
      (.reject (.wrapped 400 "Prompt is required"), readyState) ∧
    completion readyState [] dTriv [] none [] 0 =
      (.reject (.wrapped 400 "Prompt is required"), readyState) ∧
    Rej.httpStatus (.wrapped 400 "Prompt is required") = 500 ∧
    (500 : Nat) ≠ 400 := by decide

/-- Claim C4: a request arriving at any generation endpoint while the server
is busy (`processing = true`) or not ready is rejected immediately with the
503 busy/loading signal (the corresponding error frame on /chat/ws), the
server state — including the request queue — is left untouched, no
generation is started, and since nothing is ever enqueued the queue length
never exceeds 1. -/
theorem c4_theorem (s : SState) (b : Body) (d : List Nat → Option Text)
    (gen : List Nat) (eos : Option Nat) (stopToks : List Nat) (tStart : ℚ)
    (hr : Reachable s) (hbusy : s.processing = true ∨ s.ready = false) :
    (∃ r, (chat s b d gen eos).1 = .reject r ∧ (r = .busy ∨ r = .loading) ∧
      r.httpStatus = 503) ∧
    (chat s b d gen eos).2 = s ∧
    (∃ r, (completion s b d gen eos stopToks tStart).1 = .reject r ∧
      (r = .busy ∨ r = .loading) ∧ r.httpStatus = 503) ∧
    (completion s b d gen eos stopToks tStart).2 = s ∧
    (∃ r, (chatWs s b d gen eos).1 = .reject r ∧ (r = .busy ∨ r = .loading)) ∧
    (chatWs s b d gen eos).2 = s ∧
    s.requestQueue.length ≤ 1 := by
  have hq : s.requestQueue.length ≤ 1 := by rw [reachable_queue hr]; simp
  by_cases hready : s.ready = false
  · refine ⟨⟨.loading, ?_, Or.inr rfl, rfl⟩, ?_, ⟨.loading, ?_, Or.inr rfl, rfl⟩,
      ?_, ⟨.loading, ?_, Or.inr rfl⟩, ?_, hq⟩ <;>
      simp [chat, completion, chatWs, hready]
  · have hproc : s.processing = true := by
      rcases hbusy with h | h
      · exact h
      · exact absurd h hready
    refine ⟨⟨.busy, ?_, Or.inl rfl, rfl⟩, ?_, ⟨.busy, ?_, Or.inl rfl, rfl⟩,
      ?_, ⟨.busy, ?_, Or.inl rfl⟩, ?_, hq⟩ <;>
      simp [chat, completion, chatWs, hready, hproc]

/-- Claim C4 witness: a concrete reachable busy state rejects a /chat request
without mutating anything, and its queue length is within the bound. -/
theorem c4_witness :
    (sBusy.processing = true ∨ sBusy.ready = false) ∧
    (chat sBusy demoBody dTriv [] none).2 = sBusy ∧
    sBusy.requestQueue.length ≤ 1 :=
  ⟨Or.inl rfl,
   (c4_theorem sBusy demoBody dTriv [] none [] 0
     (Reachable.processingOn (Reachable.loadOk Reachable.init)) (Or.inl rfl)).2.1,
   (c4_theorem sBusy demoBody dTriv [] none [] 0
     (Reachable.processingOn (Reachable.loadOk Reachable.init))
     (Or.inl rfl)).2.2.2.2.2.2⟩

/-- Claim C5: after a /completion generation of two tokens (started at
t = 10) completes, its `finally` clause only clears `processing` (lines
951-954) and leaves `tokens_generated = 2` and `generation_start_time = 10`,
so an idle metrics snapshot taken at t = 12 reports tps = 1 ≠ 0 while
processing = false — contradicting "tps is 0 whenever processing is
false". -/
theorem c5_theorem :
    (metricsSnapshot
      (completion readyState demoBody dTriv [3, 4] none [] 10).2 12).processing
      = false ∧
    (metricsSnapshot
      (completion readyState demoBody dTriv [3, 4] none [] 10).2 12).tps = 1 ∧
    ((1 : ℚ) ≠ 0) := by
  refine ⟨by decide, ?_, by norm_num⟩
  show tpsOf (completion readyState demoBody dTriv [3, 4] none [] 10).2 12 = 1
  have h2 : (completion readyState demoBody dTriv [3, 4] none [] 10).2.tokensGenerated
      = 2 := by decide
  have h3 : (completion readyState demoBody dTriv [3, 4] none [] 10).2.generationStartTime
      = some 10 := by decide
  unfold tpsOf
  rw [h3, h2]
  norm_num

/-- Claim C6 counterexample: token [7] decodes to "<<||>||>", whose stripped
form is "<||>" (one pass of the removal regex is not idempotent).
`previousText` ("") is a string-prefix of that stripped text and the suffix
past it is non-empty, yet the code re-strips the suffix to "" — so the
emitted delta is NOT the suffix past the prefix, and `previousText` is not
advanced although the claim's delta is non-empty. -/
theorem c6_counterexample :
    decodeStep dResidual ⟨[], []⟩ 7 = ([], ⟨[7], []⟩) ∧
    strip ((dResidual [7]).getD []) = ['<', '|', '|', '>'] ∧
    startswith (strip ((dResidual [7]).getD [])) [] = true ∧
    (strip ((dResidual [7]).getD [])).drop 0 ≠ [] := by decide

/-- Claim C6 (amended): on each decoder step, (a) a decode error yields an
empty delta and leaves `previousText` unchanged, with nothing surfaced and
the loop free to continue; (b) if the previously emitted text is not a
string-prefix of the stripped current text, the delta is empty and
`previousText` is unchanged; (c) if it is a prefix and the stripped current
text contains no residual special-token markup, the delta is exactly the
suffix past the prefix, and `previousText` advances to the current text
exactly when that suffix is non-empty. (Without the no-residual-markup
proviso the emitted delta is the suffix stripped once more, as the
counterexample shows.) -/
theorem c6_theorem (d : List Nat → Option Text) (st : DecState) (tok : Nat) :
    (d (st.acc ++ [tok]) = none →
      decodeStep d st tok = ([], ⟨st.acc ++ [tok], st.prev⟩)) ∧
    (∀ raw, d (st.acc ++ [tok]) = some raw →
      startswith (strip raw) st.prev = false →
      decodeStep d st tok = ([], ⟨st.acc ++ [tok], st.prev⟩)) ∧
    (∀ raw, d (st.acc ++ [tok]) = some raw →
      startswith (strip raw) st.prev = true →
      hasSpecial (strip raw) = false →
      decodeStep d st tok =
        ((strip raw).drop st.prev.length,
         ⟨st.acc ++ [tok],
          if (strip raw).drop st.prev.length = [] then st.prev
          else strip raw⟩)) :=
  ⟨fun hd => decodeStep_none hd,
   fun _ hd hsw => decodeStep_skip hd hsw,
   fun _ hd hsw hcl => decodeStep_clean hd hsw hcl⟩

/-- Claim C6 witness: a concrete prefix-extending step ("H" to "Hi") emits
exactly the suffix "i" and advances `previousText`. -/
theorem c6_witness :
    decodeStep dHi ⟨[5], ['H']⟩ 6 = (['i'], ⟨[5, 6], ['H', 'i']⟩) := by
  have h := (c6_theorem dHi ⟨[5], ['H']⟩ 6).2.2 ['H', 'i'] (by decide)
    (by decide) (by decide)
  rw [h]
  decide

/-- Claim C7: the log buffer bound — one `broadcast_log` append to a buffer
within the 1000-line bound stays within it (a full buffer evicts exactly the
oldest line), 1001 appends starting from empty leave exactly the most recent
1000 lines, and every reachable server state satisfies the bound. -/
theorem c7_theorem {α : Type} (buf : List α) (m : α) (msgs : List α)
    (h : buf.length ≤ 1000) (hm : msgs.length = 1001) :
    (broadcastLog buf m).length ≤ 1000 ∧
    List.foldl broadcastLog ([] : List α) msgs = msgs.drop 1 ∧
    (∀ s : SState, Reachable s → s.logMessages.length ≤ 1000) := by
  refine ⟨broadcastLog_le buf m h, ?_, fun s hs => reachable_logLen hs⟩
  obtain ⟨pre, hpre⟩ := foldl_broadcastLog_suffix msgs ([] : List α)
  have hlen := foldl_broadcastLog_length msgs ([] : List α) (by simp)
  have heq := eq_drop_of_suffix_len hpre
  simp only [List.nil_append] at heq
  rw [heq, hlen, hm]
  norm_num

/-- Claim C7 witness: 1001 appends starting from the empty buffer. -/
theorem c7_witness :
    (broadcastLog ([] : List Nat) 0).length ≤ 1000 ∧
    List.foldl broadcastLog ([] : List Nat) (List.range 1001) =
      (List.range 1001).drop 1 :=
  ⟨(c7_theorem [] 0 (List.range 1001) (by simp) (by simp)).1,
   (c7_theorem [] 0 (List.range 1001) (by simp) (by simp)).2.1⟩

/-- Claim C8: a subscriber connecting over a 2-line buffer receives exactly
that backlog (min(100, k) lines); but a line published with
`broadcast_log_async` while the subscriber is connected is delivered twice —
once by the immediate WebSocket push and once by the handler's 0.5s poll of
`log_messages[last_index:]`, whose cursor the push never advanced — so
"thereafter receives every subsequently appended line exactly once, with no
duplicates" fails. -/
theorem c8_theorem :
    (connectSub ([10, 20] : List Nat)).received = [10, 20] ∧
    (pollTick (asyncBroadcast (connectSub ([10, 20] : List Nat)) 30)).received =
      [10, 20, 30, 30] ∧
    ((pollTick (asyncBroadcast (connectSub ([10, 20] : List Nat)) 30)).received.count 30)
      = 2 := by decide

/-- Claim C9 counterexample: requests carrying `top_k` sent to each
generation endpoint — POST /chat, POST /completion (which reads `top_k` into
an unused variable) and /chat/ws — are accepted and stream normally, but the
only log line any handler emits is the completion line: no warning log line
naming the unsupported field is ever emitted by the HTTP server. -/
theorem c9_counterexample :
    outcomeEvents (chat readyState bodyTopK dTriv [3] none).1 =
      [Ev.token ['o', 'k'], Ev.stopPlain] ∧
    outcomeLogs (chat readyState bodyTopK dTriv [3] none).1 =
      [LogLine.completedGen 1] ∧
    outcomeEvents (completion readyState bodyTopK dTriv [3] none [] 10).1 =
      [Ev.token ['o', 'k'], Ev.stopPlain] ∧
    outcomeLogs (completion readyState bodyTopK dTriv [3] none [] 10).1 =
      [LogLine.completedGen 1] ∧
    outcomeEvents (chatWs readyState bodyTopK dTriv [3] none).1 =
      [Ev.token ['o', 'k'], Ev.stopPlain] ∧
    outcomeLogs (chatWs readyState bodyTopK dTriv [3] none).1 =
      [LogLine.completedGen 1] ∧
    (∀ l ∈ outcomeLogs (chat readyState bodyTopK dTriv [3] none).1,
      l.isWarn = false) ∧
    (∀ l ∈ outcomeLogs (completion readyState bodyTopK dTriv [3] none [] 10).1,
      l.isWarn = false) ∧
    (∀ l ∈ outcomeLogs (chatWs readyState bodyTopK dTriv [3] none).1,
      l.isWarn = false) := by decide

/-- Claim C9 (amended): a generation request carrying an unsupported sampling
field — on any of the three generation endpoints — is accepted and processed
exactly as the same request without it: the field is ignored (the /chat
parameter extraction and the full /chat, /chat/ws and /completion results are
unchanged by its presence) and never causes an error; but the HTTP server
emits no warning log line for it: no log line produced by any /chat,
/chat/ws or /completion run is an unsupported-options warning (that warning
exists only in the standalone inference.py CLI). -/
theorem c9_theorem (s : SState) (b : Body) (k : String) (v : JVal)
    (d : List Nat → Option Text) (gen : List Nat) (eos : Option Nat)
    (stopToks : List Nat) (tStart : ℚ)
    (hk : k ∈ unsupportedFields) :
    chatParams ((k, v) :: b) = chatParams b ∧
    chat s ((k, v) :: b) d gen eos = chat s b d gen eos ∧
    chatWs s ((k, v) :: b) d gen eos = chatWs s b d gen eos ∧
    completion s ((k, v) :: b) d gen eos stopToks tStart =
      completion s b d gen eos stopToks tStart ∧
    (∀ l ∈ outcomeLogs (chat s ((k, v) :: b) d gen eos).1, l.isWarn = false) ∧
    (∀ l ∈ outcomeLogs (chatWs s ((k, v) :: b) d gen eos).1, l.isWarn = false) ∧
    (∀ l ∈ outcomeLogs (completion s ((k, v) :: b) d gen eos stopToks tStart).1,
      l.isWarn = false) := by
  have hp : chatParams ((k, v) :: b) = chatParams b := by
    fin_cases hk <;> simp [chatParams, bodyGet, List.lookup]
  have hc : chat s ((k, v) :: b) d gen eos = chat s b d gen eos := by
    fin_cases hk <;> simp [chat, chatParams, bodyGet, List.lookup]
  have hw : chatWs s ((k, v) :: b) d gen eos = chatWs s b d gen eos := by
    fin_cases hk <;> simp [chatWs, chatParams, bodyGet, List.lookup]
  have hcp : completion s ((k, v) :: b) d gen eos stopToks tStart =
      completion s b d gen eos stopToks tStart := by
    fin_cases hk <;> simp [completion, bodyGet, List.lookup]
  exact ⟨hp, hc, hw, hcp, chat_no_warn s ((k, v) :: b) d gen eos,
    chatWs_no_warn s ((k, v) :: b) d gen eos,
    completion_no_warn s ((k, v) :: b) d gen eos stopToks tStart⟩

/-- Claim C9 witness: adding `top_k` to a request leaves the extracted
parameters and the full /chat, /chat/ws and /completion results unchanged. -/
theorem c9_witness :
    chatParams bodyTopK = chatParams demoBody ∧
    chat readyState bodyTopK dTriv [3] none =
      chat readyState demoBody dTriv [3] none ∧
    chatWs readyState bodyTopK dTriv [3] none =
      chatWs readyState demoBody dTriv [3] none ∧
    completion readyState bodyTopK dTriv [3] none [] 10 =
      completion readyState demoBody dTriv [3] none [] 10 :=
  ⟨(c9_theorem readyState demoBody "top_k" (.num 10) dTriv [3] none [] 10
      (by decide)).1,
   (c9_theorem readyState demoBody "top_k" (.num 10) dTriv [3] none [] 10
      (by decide)).2.1,
   (c9_theorem readyState demoBody "top_k" (.num 10) dTriv [3] none [] 10
      (by decide)).2.2.1,
   (c9_theorem readyState demoBody "top_k" (.num 10) dTriv [3] none [] 10
      (by decide)).2.2.2.1⟩

/-- Claim C10: in every reachable server state the request queue is empty —
no handler ever enqueues or dequeues — so every metrics snapshot reports
queueLength = 0. -/
theorem c10_theorem (s : SState) (now : ℚ) (hr : Reachable s) :
    s.requestQueue = [] ∧ (metricsSnapshot s now).queueLength = 0 := by
  have hq := reachable_queue hr
  exact ⟨hq, by simp [metricsSnapshot, hq]⟩

/-- Claim C10 witness: the initial state. -/
theorem c10_witness :
    initState.requestQueue = [] ∧
    (metricsSnapshot initState 0).queueLength = 0 :=
  c10_theorem initState 0 Reachable.init

end MlxServer


